import Mathlib

/-!
Verification development for the orchestration core of the `fastspeech` TTS
repository (files `src/tts_engine.py`, `src/model_store.py`, `src/config.py`).

The Python code is shallowly embedded:
  * strings are `List Char`; Python `float` values arising from the tag
    grammar `[0-9.]+` are represented exactly as rationals (`ℚ`), every
    decimal literal appearing in the claims is exactly representable;
  * the two regular expressions of `TTSEngine.extract_text_alpha_chunks`
    (`<alpha=([0-9.]+)>` and `<sil=([0-9.]+)(ms|s)>`) are embedded as
    explicit left-to-right scanners with maximal-munch numeric runs, which
    coincides with the Python `re` semantics for these star-free patterns;
  * exceptions (`float` parse errors) are modelled with `Option`/`Except`,
    a raised exception making the whole call return `none`/`.error`;
  * audio sample buffers are `List ℤ`; the external acoustic model,
    vocoder and preprocessor are opaque parameters.
-/

namespace FastSpeech

/-- Convert a Lean string literal to the character-list representation used
throughout this development. -/
def str (s : String) : List Char := s.data

/-- Python `str.split(sep)` character class used by the segmenter: the
whitespace characters recognised by CPython `str.split()` / `str.strip()`
restricted to ASCII (space, tab, newline, carriage return, vertical tab,
form feed). -/
def isSpaceCh (c : Char) : Bool :=
  c = ' ' || c = '\t' || c = '\n' || c = '\r' || c.toNat == 11 || c.toNat == 12

/-- Split a character list on a separator character, Python
`str.split(sep)` semantics: always returns one more piece than there are
separators, pieces may be empty. -/
def splitOnChar (sep : Char) : List Char → List (List Char)
  | [] => [[]]
  | c :: cs =>
    match splitOnChar sep cs with
    | [] => [[c]]
    | r :: rs => if c = sep then [] :: r :: rs else (c :: r) :: rs

/-- Whitespace-splitting worker: `cur` is the (reversed) word being
accumulated. Mirrors Python `str.split()` with no argument (no empty
words). -/
def splitWSGo (cur : List Char) : List Char → List (List Char)
  | [] => if cur.isEmpty then [] else [cur.reverse]
  | c :: cs =>
    if isSpaceCh c then
      if cur.isEmpty then splitWSGo [] cs else cur.reverse :: splitWSGo [] cs
    else
      splitWSGo (c :: cur) cs

/-- Python `str.split()` (split on whitespace runs, dropping empty words). -/
def splitWS (s : List Char) : List (List Char) := splitWSGo [] s

/-- Python `str.strip()`: drop leading and trailing whitespace. -/
def stripWS (s : List Char) : List Char :=
  ((s.dropWhile isSpaceCh).reverse.dropWhile isSpaceCh).reverse

/-- Python `" ".join(words)`. -/
def joinWords : List (List Char) → List Char
  | [] => []
  | [w] => w
  | w :: ws => w ++ ' ' :: joinWords ws

/-- Match a literal character sequence at the head of the input, returning
the remainder on success. -/
def dropLit : List Char → List Char → Option (List Char)
  | [], s => some s
  | _ :: _, [] => none
  | c :: p, d :: s => if c = d then dropLit p s else none

/-- Characters matched by the regex character class `[0-9.]`. -/
def runChar (c : Char) : Bool := c.isDigit || c = '.'

/-- Maximal-munch run of `[0-9.]` characters (the greedy `[0-9.]+` core of
both tag regexes), returning the run and the remainder. -/
def takeRun : List Char → List Char × List Char
  | [] => ([], [])
  | c :: cs =>
    if runChar c then
      let (r, t) := takeRun cs
      (c :: r, t)
    else ([], c :: cs)

/-- Decimal value of a digit run, as in Python `int` semantics of the
integer part of a float literal. -/
def digitsVal (l : List Char) : ℕ :=
  l.foldl (fun a c => 10 * a + (c.toNat - 48)) 0

/-- Python `float(s)` restricted to strings drawn from the character class
`[0-9.]+` (the only strings the tag regexes can capture): defined exactly
when there is at least one digit and at most one dot, the exact rational
value of the decimal literal otherwise. `float("1.2.3")` and `float(".")`
raise `ValueError` in Python and parse to `none` here. -/
def parseFloatQ (s : List Char) : Option ℚ :=
  if s.any Char.isDigit then
    match splitOnChar '.' s with
    | [i] => if i.all Char.isDigit then some (digitsVal i) else none
    | [i, f] =>
      if i.all Char.isDigit && f.all Char.isDigit then
        some (mkRat (digitsVal i * 10 ^ f.length + digitsVal f) (10 ^ f.length))
      else none
    | _ => none
  else none

/-- Literal prefix of the speed-tag regex `<alpha=([0-9.]+)>`. -/
def alphaLit : List Char := str "<alpha="

/-- Literal prefix of the silence-tag regex `<sil=([0-9.]+)(ms|s)>`. -/
def silLit : List Char := str "<sil="

/-- Attempt to match the speed tag `<alpha=([0-9.]+)>` at the head of the
input; on success return the captured numeric run and the remainder after
the closing bracket. Faithful to the Python regex: the capture is the
maximal `[0-9.]` run, which must be non-empty and immediately followed by
the closing bracket (no backtracking can succeed otherwise, since the
class excludes the bracket). -/
def matchAlphaAt (s : List Char) : Option (List Char × List Char) :=
  match dropLit alphaLit s with
  | none => none
  | some r1 =>
    let (run, r2) := takeRun r1
    if run.isEmpty then none
    else
      match r2 with
      | '>' :: r3 => some (run, r3)
      | _ => none

/-- Attempt to match the silence tag `<sil=([0-9.]+)(ms|s)>` at the head of
the input; on success return the captured numeric run, whether the unit was
`ms` (`true`) or `s` (`false`), and the remainder. The alternation tries
`ms` before `s`, as in the Python pattern. -/
def matchSilAt (s : List Char) : Option (List Char × Bool × List Char) :=
  match dropLit silLit s with
  | none => none
  | some r1 =>
    let (run, r2) := takeRun r1
    if run.isEmpty then none
    else
      match r2 with
      | 'm' :: 's' :: '>' :: r3 => some (run, true, r3)
      | 's' :: '>' :: r3 => some (run, false, r3)
      | _ => none

/-- Worker for `re.split(r"<alpha=([0-9.]+)>", text)`: scan left to right;
on a match emit the pending block and the capture and continue after the
match, otherwise advance one character. The fuel argument (instantiated
with the input length) only makes the recursion structural; it never runs
out on the intended calls. Returns the leading block and the list of
(capture, following block) pairs, i.e. the odd/even positions of the
Python result list. -/
def splitAlphaGo : ℕ → List Char → List Char × List (List Char × List Char)
  | 0, s => (s, [])
  | _ + 1, [] => ([], [])
  | f + 1, c :: cs =>
    match matchAlphaAt (c :: cs) with
    | some (cap, rest) =>
      let (b, ps) := splitAlphaGo f rest
      ([], (cap, b) :: ps)
    | none =>
      let (b, ps) := splitAlphaGo f cs
      (c :: b, ps)

/-- Embedding of `re.split(r"<alpha=([0-9.]+)>", text)` (line 204 of
`tts_engine.py`). -/
def splitAlpha (s : List Char) : List Char × List (List Char × List Char) :=
  splitAlphaGo s.length s

/-- Worker for `re.finditer(sil_pattern, current_block)`: the list of
non-overlapping matches, scanned left to right, each as (captured numeric
run, unit-is-ms). -/
def findSilGo : ℕ → List Char → List (List Char × Bool)
  | 0, _ => []
  | _ + 1, [] => []
  | f + 1, c :: cs =>
    match matchSilAt (c :: cs) with
    | some (run, isMs, rest) => (run, isMs) :: findSilGo f rest
    | none => findSilGo f cs

/-- Embedding of `list(re.finditer(r"<sil=([0-9.]+)(ms|s)>", block))`
(line 218 of `tts_engine.py`). -/
def findSil (s : List Char) : List (List Char × Bool) :=
  findSilGo s.length s

/-- Reconstruct the full matched tag text of a silence match, the
`match.group(0)` string that line 228 of `tts_engine.py` replaces. -/
def silTag (run : List Char) (isMs : Bool) : List Char :=
  silLit ++ run ++ (if isMs then str "ms>" else str "s>")

/-- Placeholder token `__SIL_<j>__` (line 226 of `tts_engine.py`). -/
def silPh (j : ℕ) : List Char := str "__SIL_" ++ (Nat.repr j).data ++ str "__"

/-- Conversion of a parsed silence value to seconds (line 225 of
`tts_engine.py`): `value / 1000.0 if unit == "ms" else value`. The
division is written as an unreduced fraction (`mkRat`) so the kernel can
evaluate it; the bridge lemma `silDuration_ms` proves it equal to
`v / 1000`. -/
def silDuration (v : ℚ) (isMs : Bool) : ℚ :=
  if isMs then mkRat v.num (v.den * 1000) else v

/-- Python `str.replace(pat, rep)` worker: replace every non-overlapping
occurrence, scanning left to right. Fuel is the input length; it suffices
whenever `pat` is non-empty, which holds for every tag text. -/
def replaceAllGo (pat rep : List Char) : ℕ → List Char → List Char
  | 0, s => s
  | _ + 1, [] => []
  | f + 1, c :: cs =>
    match dropLit pat (c :: cs) with
    | some rest => rep ++ replaceAllGo pat rep f rest
    | none => c :: replaceAllGo pat rep f cs

/-- Python `str.replace(pat, rep)` (replace all occurrences). -/
def replaceAll (pat rep s : List Char) : List Char :=
  replaceAllGo pat rep s.length s

/-- Effectful map over a list in the `Option` monad: the first failure
aborts the whole computation. -/
def mapOptionM (f : α → Option β) : List α → Option (List β)
  | [] => some []
  | a :: l =>
    match f a with
    | none => none
    | some b => (mapOptionM f l).map (b :: ·)

/-- Parse the numeric values of all silence matches of a block, in match
order, converting each to seconds. The Python loop at lines 221-228 calls
`float(match.group(1))` per match, so the first malformed value raises and
aborts the whole call: here that is `none`. -/
def silDurations (ms : List (List Char × Bool)) : Option (List ℚ) :=
  mapOptionM (fun m => (parseFloatQ m.1).map fun v => silDuration v m.2) ms

/-- The placeholder dictionary `sil_placeholders` built at lines 226-227:
the j-th placeholder maps to the j-th match's duration. -/
def silPhMap (durs : List ℚ) : List (List Char × ℚ) :=
  durs.enum.map fun jd => (silPh jd.1, jd.2)

/-- The sequence of in-place replacements at line 228: for each match j,
replace every occurrence of its full tag text by the j-th placeholder
surrounded by single spaces. -/
def applySilReplaces (ms : List (List Char × Bool)) (block : List Char) :
    List Char :=
  ms.enum.foldl
    (fun b jm => replaceAll (silTag jm.2.1 jm.2.2) (' ' :: silPh jm.1 ++ [' ']) b)
    block

/-- Python dict membership/lookup `word in sil_placeholders` (line 238);
keys are pairwise distinct so first-match association lookup agrees with
the dict. -/
def phLookup (w : List Char) : List (List Char × ℚ) → Option ℚ
  | [] => none
  | p :: ps => if w = p.1 then some p.2 else phLookup w ps

/-- One chunk of the result of `extract_text_alpha_chunks`: the Python
tuple `(text, alpha, is_silence, silence_duration)`. -/
structure Chunk where
  text : List Char
  alpha : ℚ
  isSilence : Bool
  silDur : Option ℚ
deriving DecidableEq, Repr

/-- The word scan at lines 233-247: accumulate non-placeholder words into
a buffer; on a placeholder, flush the buffer (if non-empty) as a text
chunk, then emit a silence chunk with the placeholder's duration; flush
any trailing buffer. `buf` holds the pending words reversed. -/
def emitGo (phs : List (List Char × ℚ)) (alpha : ℚ) :
    List (List Char) → List (List Char) → List Chunk
  | buf, [] =>
    if buf.isEmpty then [] else [⟨joinWords buf.reverse, alpha, false, none⟩]
  | buf, w :: ws =>
    match phLookup w phs with
    | some d =>
      (if buf.isEmpty then [] else [⟨joinWords buf.reverse, alpha, false, none⟩])
        ++ ⟨[], alpha, true, some d⟩ :: emitGo phs alpha [] ws
    | none => emitGo phs alpha (w :: buf) ws

/-- Process one speed-scoped block at the active speed `alpha`
(lines 217-247 of `tts_engine.py`): find the silence tags, parse their
durations (a malformed value fails the whole call), substitute
placeholders, split into sentences on the literal period, strip each
sentence and drop empty ones, then run the word scan on each sentence. -/
def processBlock (block : List Char) (alpha : ℚ) : Option (List Chunk) :=
  let ms := findSil block
  match silDurations ms with
  | none => none
  | some durs =>
    let phs := silPhMap durs
    let block2 := applySilReplaces ms block
    let sentences :=
      ((splitOnChar '.' block2).map stripWS).filter fun s => ¬ s.isEmpty
    some (sentences.flatMap fun sent => emitGo phs alpha [] (splitWS sent))

/-- Process the (capture, block) pairs produced by the alpha split: each
captured value is parsed with `float` (malformed fails the call) and
becomes the active speed for its own block (the Python `while` loop at
lines 207-215, where `alpha` is reassigned at every capture). -/
def processPairs : List (List Char × List Char) → Option (List Chunk)
  | [] => some []
  | (cap, b) :: ps =>
    match parseFloatQ cap with
    | none => none
    | some a =>
      match processBlock b a with
      | none => none
      | some cb => (processPairs ps).map (cb ++ ·)

/-- Embedding of `TTSEngine.extract_text_alpha_chunks(text, default_alpha)`
(lines 186-249 of `tts_engine.py`). `none` models a raised `ValueError`
from `float` on a malformed tag value. -/
def extract_text_alpha_chunks (text : List Char) (default_alpha : ℚ) :
    Option (List Chunk) :=
  match processBlock (splitAlpha text).1 default_alpha with
  | none => none
  | some c0 => (processPairs (splitAlpha text).2).map (c0 ++ ·)

/-! Embedding of `TTSEngine.synthesize` (lines 275-347 of
`tts_engine.py`). The loaded acoustic model, vocoder and preprocessor are
opaque: they are bundled into a `Model` record of abstract functions. The
thread pool submits non-silence chunks in chunk order and collects the
`futures` list in that same submission order, so its observable result is
the order-preserving sequential composition embedded here. -/

/-- Python `int(q)` for the non-negative rationals arising here
(truncation toward zero, which is the floor on non-negatives), written as
a natural division of the numerator by the denominator so the kernel can
evaluate it; the bridge lemma `intTrunc_eq_floor` identifies it with
`⌊q⌋` on non-negatives. -/
def intTrunc (q : ℚ) : ℕ := q.num.toNat / q.den

/-- Multiplication of a rational by a natural, written as an unreduced
fraction so the kernel can evaluate it; the bridge lemma `mulNatQ_eq`
proves it equal to `q * n`. -/
def mulNatQ (q : ℚ) (n : ℕ) : ℚ := mkRat (q.num * n) q.den

/-- The configuration fields of `Config` consumed by `synthesize`
(`config.py` lines 32-33). -/
structure EngineCfg where
  samplingRate : ℕ
  maxTextLength : ℕ
deriving DecidableEq, Repr

/-- The in-memory model triple returned by `load_model`, with the external
collaborators as opaque functions: `preprocess` is the composition
`" ".join(preprocessor.preprocess(text, language, gender)[0])` of
lines 319-322, and `synthChunk` is `synthesize_chunk` (model + vocoder). -/
structure Model where
  preprocess : List Char → List Char
  synthChunk : List Char → ℚ → List ℤ

/-- The error outcomes of a `synthesize` call: the `ValueError` of the
length guard (lines 290-294), a propagated model-load failure
(`RuntimeError` from `load_model`), and a propagated `ValueError` from a
malformed tag value during segmentation. -/
inductive SynthErr where
  | tooLong : ℕ → ℕ → SynthErr
  | loadFailed : String → SynthErr
  | parseFailed : SynthErr
deriving DecidableEq, Repr

/-- Number of zero samples generated for a silence chunk (line 311):
`int(sil_duration * self.sampling_rate)`. -/
def silenceSamples (rate : ℕ) (d : ℚ) : ℕ := intTrunc (mulNatQ d rate)

/-- Number of zero samples of the fallback half-second buffer (line 344):
`int(0.5 * self.sampling_rate)`, i.e. the truncation of `rate / 2`. -/
def halfSecondSamples (rate : ℕ) : ℕ := intTrunc (mkRat rate 2)

/-- The audio buffer one chunk contributes (lines 308-332): a silence
chunk contributes its zero buffer, an empty-after-strip text chunk is
skipped outright (`none`), and any other text chunk contributes the
synthesis of its preprocessed text at its own speed. -/
def chunkSeg (m : Model) (cfg : EngineCfg) (ch : Chunk) : Option (List ℤ) :=
  if ch.isSilence then
    some (List.replicate (silenceSamples cfg.samplingRate (ch.silDur.getD 0)) 0)
  else if (stripWS ch.text).isEmpty then none
  else some (m.synthChunk (m.preprocess ch.text) ch.alpha)

/-- The per-chunk audio buffers appended to `futures`/`audio_arr` in chunk
order (lines 305-339). -/
def segsOf (m : Model) (cfg : EngineCfg) (chunks : List Chunk) :
    List (List ℤ) :=
  chunks.filterMap (chunkSeg m cfg)

/-- Embedding of `TTSEngine.synthesize(text, language, gender, alpha)`.
The `loadModel` argument stands for the outcome of
`self.load_model(language, gender)`; its error propagates. The length
guard runs first; segmentation and chunk processing only on the success
path; if no chunk contributed a buffer (`if not audio_arr`), a fixed
half-second zero buffer is returned, otherwise the order-preserving
concatenation of the buffers. -/
def synthesize (cfg : EngineCfg) (loadModel : Except String Model)
    (text : List Char) (alpha : ℚ) : Except SynthErr (List ℤ) :=
  if cfg.maxTextLength < text.length then
    .error (.tooLong text.length cfg.maxTextLength)
  else
    match loadModel with
    | .error e => .error (.loadFailed e)
    | .ok m =>
      match extract_text_alpha_chunks text alpha with
      | none => .error .parseFailed
      | some chunks =>
        let segs := segsOf m cfg chunks
        if segs.isEmpty then
          .ok (List.replicate (halfSecondSamples cfg.samplingRate) 0)
        else .ok segs.flatten

/-! Embedding of `ModelStore` (`model_store.py`). The local filesystem is
the list of existing paths (files and directories); the remote GCS bucket
is an oracle giving the blob names listed under a prefix. Each operation
additionally returns the list of remote events it performed, so that
"no remote call" is a provable statement. -/

/-- An existing-path filesystem snapshot. -/
abbrev Fs := List String

/-- Path concatenation, `pathlib`'s `/` operator on the POSIX paths used
by the store. -/
def pjoin (a b : String) : String := a ++ "/" ++ b

/-- Store construction parameters: the local model root, whether a GCS
bucket is configured, and the bucket listing oracle
(`bucket.list_blobs(prefix=p)` as the list of blob names). -/
structure StoreCfg where
  modelsDir : String
  gcsConfigured : Bool
  gcsBlobs : String → List String

/-- A remote interaction performed by the store. -/
inductive RemoteEv where
  | listBlobs : String → RemoteEv
  | download : String → String → RemoteEv
deriving DecidableEq, Repr

/-- `ModelStore.get_model_path` (lines 52-54). -/
def get_model_path (cfg : StoreCfg) (language gender : String) : String :=
  pjoin (pjoin (pjoin cfg.modelsDir language) gender) "model"

/-- `ModelStore.get_vocoder_path` (lines 56-69): the language-specific
directory if it exists, else the aryan-group fallback directory if it
exists, else the language-specific path anyway. -/
def get_vocoder_path (cfg : StoreCfg) (fs : Fs) (language gender : String) :
    String :=
  let langV := pjoin (pjoin (pjoin cfg.modelsDir "vocoder") gender) language
  if langV ∈ fs then langV
  else
    let aryan := pjoin (pjoin (pjoin cfg.modelsDir "vocoder") gender) "aryan"
    if aryan ∈ fs then aryan else langV

/-- The acoustic-model manifest (lines 74-80). -/
def modelRequiredFiles : List String :=
  ["config.yaml", "model.pth", "feats_stats.npz", "pitch_stats.npz",
   "energy_stats.npz"]

/-- The vocoder manifest (line 86). -/
def vocoderRequiredFiles : List String := ["config.json", "generator"]

/-- `ModelStore.model_exists_locally` (lines 71-81). -/
def model_exists_locally (cfg : StoreCfg) (fs : Fs) (language gender : String) :
    Bool :=
  modelRequiredFiles.all fun f =>
    decide (pjoin (get_model_path cfg language gender) f ∈ fs)

/-- `ModelStore.vocoder_exists_locally` (lines 83-87). -/
def vocoder_exists_locally (cfg : StoreCfg) (fs : Fs)
    (language gender : String) : Bool :=
  vocoderRequiredFiles.all fun f =>
    decide (pjoin (get_vocoder_path cfg fs language gender) f ∈ fs)

/-- Strip leading slashes, Python `str.lstrip('/')`. -/
def lstripSlash (s : String) : String :=
  String.mk (s.data.dropWhile fun c => c = '/')

/-- `ModelStore.download_from_gcs(gcs_prefix, local_path)` (lines 89-138):
fails if no bucket is configured; creates the destination directory;
lists the blobs under the prefix (failing on an empty listing); downloads
every blob that is neither a directory marker nor the bare prefix into the
corresponding local path. Returns success, the updated filesystem, and
the remote events. -/
def download_from_gcs (cfg : StoreCfg) (gcsPre localPath : String) (fs : Fs) :
    Bool × Fs × List RemoteEv :=
  if ¬ cfg.gcsConfigured then (false, fs, [])
  else
    let fs1 := fs ++ [localPath]
    let blobs := cfg.gcsBlobs gcsPre
    if blobs.isEmpty then (false, fs1, [.listBlobs gcsPre])
    else
      let dl := blobs.filterMap fun b =>
        if b.endsWith "/" then none
        else
          let rel := lstripSlash (b.drop gcsPre.length)
          if rel = "" then none else some (b, pjoin localPath rel)
      (true, fs1 ++ dl.map (·.2),
        .listBlobs gcsPre :: dl.map fun p => .download p.1 p.2)

/-- `ModelStore.ensure_model(language, gender)` (lines 140-170). The
per-key download lock only serialises this body; in this sequential
embedding it has no further observable effect. -/
def ensure_model (cfg : StoreCfg) (fs : Fs) (language gender : String) :
    Bool × String × Fs × List RemoteEv :=
  if model_exists_locally cfg fs language gender then
    (true, "Model exists locally", fs, [])
  else if cfg.gcsConfigured then
    let gcsPre := language ++ "/" ++ gender ++ "/model"
    let localPath := get_model_path cfg language gender
    match download_from_gcs cfg gcsPre localPath fs with
    | (true, fs1, evs) =>
      if model_exists_locally cfg fs1 language gender then
        (true, "Model downloaded from GCS", fs1, evs)
      else
        (false, "Download completed but required files missing", fs1, evs)
    | (false, fs1, evs) =>
      (false, "Failed to download model from GCS", fs1, evs)
  else
    (false, "Model not found locally and GCS not configured", fs, [])

/-- `ModelStore.ensure_vocoder(language, gender)` (lines 172-211): local
check, then the language-specific remote prefix, then the aryan-group
fallback prefix; failure of both stages is an overall failure. -/
def ensure_vocoder (cfg : StoreCfg) (fs : Fs) (language gender : String) :
    Bool × String × Fs × List RemoteEv :=
  if vocoder_exists_locally cfg fs language gender then
    (true, "Vocoder exists locally", fs, [])
  else if cfg.gcsConfigured then
    let p1 := "vocoder/" ++ gender ++ "/" ++ language
    let lp1 := pjoin (pjoin (pjoin cfg.modelsDir "vocoder") gender) language
    let afterLang :
        Bool × Fs × List RemoteEv → Bool × String × Fs × List RemoteEv :=
      fun r =>
        let p2 := "vocoder/" ++ gender ++ "/aryan"
        let lp2 := pjoin (pjoin (pjoin cfg.modelsDir "vocoder") gender) "aryan"
        match download_from_gcs cfg p2 lp2 r.2.1 with
        | (true, fs2, e2) =>
          if vocoder_exists_locally cfg fs2 language gender then
            (true, "Vocoder downloaded from GCS (aryan)", fs2, r.2.2 ++ e2)
          else (false, "Failed to download vocoder from GCS", fs2, r.2.2 ++ e2)
        | (false, fs2, e2) =>
          (false, "Failed to download vocoder from GCS", fs2, r.2.2 ++ e2)
    match download_from_gcs cfg p1 lp1 fs with
    | (true, fs1, e1) =>
      if vocoder_exists_locally cfg fs1 language gender then
        (true, "Vocoder downloaded from GCS", fs1, e1)
      else afterLang (true, fs1, e1)
    | (false, fs1, e1) => afterLang (false, fs1, e1)
  else
    (false, "Vocoder not found locally and GCS not configured", fs, [])

/-! Embedding of `TTSEngine.load_fastspeech2` (lines 115-156 of
`tts_engine.py`), the part relevant to the on-disk config rewrite. The
parsed `config.yaml` is a record of the three normalization-statistics
entries plus an opaque remainder; the store maps a path to the parsed
yaml content of the file there. -/

/-- Parsed `config.yaml` content: the three nested `stats_file` entries
rewritten by `load_fastspeech2`, plus every other entry, opaque and
untouched. -/
structure YamlCfg where
  featsStats : String
  pitchStats : String
  energyStats : String
  rest : List (String × String)
deriving DecidableEq, Repr

/-- Contents of the yaml files on local disk, by path. -/
abbrev YamlStore := String → Option YamlCfg

/-- The `Text2Speech(train_config=..., model_file=..., device=...)` handle
(lines 149-153), as the data it is constructed from: in particular the
train config CONTENT read back from disk at construction time. -/
structure FS2Handle where
  trainConfig : YamlCfg
  modelFile : String
  device : String
deriving DecidableEq, Repr

/-- The rewrite of lines 136-142: replace the three `stats_file` entries
with the absolute paths of the stats files under the model directory. -/
def rewriteStats (modelPath : String) (c : YamlCfg) : YamlCfg :=
  { c with
    featsStats := pjoin modelPath "feats_stats.npz"
    pitchStats := pjoin modelPath "pitch_stats.npz"
    energyStats := pjoin modelPath "energy_stats.npz" }

/-- Embedding of `TTSEngine.load_fastspeech2(language, gender)`: ensure
the model artifacts (propagating failure as `RuntimeError`), check the
config and weights files exist, read `config.yaml`, rewrite the three
stats entries to absolute local paths, write the updated config back to
disk, and only then construct the model handle from the written config
file. Returns the handle, the filesystem and yaml store after the call,
and the remote events. -/
def load_fastspeech2 (cfg : StoreCfg) (fs : Fs) (ys : YamlStore)
    (device language gender : String) :
    Except String (FS2Handle × Fs × YamlStore × List RemoteEv) :=
  match ensure_model cfg fs language gender with
  | (false, msg, _, _) => .error ("Model not available: " ++ msg)
  | (true, _, fs1, evs) =>
    let modelPath := get_model_path cfg language gender
    let configFile := pjoin modelPath "config.yaml"
    let modelFile := pjoin modelPath "model.pth"
    if configFile ∉ fs1 then .error ("Model config not found: " ++ configFile)
    else if modelFile ∉ fs1 then .error ("Model file not found: " ++ modelFile)
    else
      match ys configFile with
      | none => .error ("Model config unreadable: " ++ configFile)
      | some c =>
        let c2 := rewriteStats modelPath c
        let ys2 : YamlStore := fun p => if p = configFile then some c2 else ys p
        match ys2 configFile with
        | none => .error ("Model config unreadable: " ++ configFile)
        | some cRead => .ok (⟨cRead, modelFile, device⟩, fs1, ys2, evs)

/-! Interleaving model for `TTSEngine.load_model` (lines 158-184 of
`tts_engine.py`) under two concurrent callers for the same uncached key.
`load_model` takes no lock of its own: the only locks in the repository
are the per-artifact download locks INSIDE `ModelStore.ensure_model` and
`ModelStore.ensure_vocoder`, which serialise the two downloads but leave
the surrounding cache check, handle construction and cache insertion
unguarded. Each thread therefore executes, atomically per step (CPython
executes each of these lines without an intervening cache mutation being
forbidden):
  step 0: read `self.model_cache` (line 167); on a hit, return the cached
          triple, else fall through to the load path;
  step 1: run `load_fastspeech2` + `load_vocoder` + preprocessor selection
          (lines 174-178), i.e. one full underlying model construction --
          the artifact locks inside can serialise this step across threads
          without changing which thread performs it;
  step 2: insert its own freshly built triple (line 181);
  step 3: return `self.model_cache[cache_key]` (line 184).
Handles are identified by the id of the thread that built them. -/

/-- Shared and per-thread state of the two-caller `load_model` race. -/
structure RaceState where
  cache : Option ℕ
  builds : ℕ
  pcA : ℕ
  pcB : ℕ
  retA : Option ℕ
  retB : Option ℕ
deriving DecidableEq, Repr

/-- Initial state: the key is uncached, nothing built, both callers at the
cache check. -/
def raceInit : RaceState :=
  { cache := none, builds := 0, pcA := 0, pcB := 0, retA := none, retB := none }

/-- One atomic step of thread A (`tid = true`) or thread B (`tid = false`)
executing `load_model` as described above. A finished thread (pc ≥ 4)
does nothing. -/
def loadModelStep (tid : Bool) (s : RaceState) : RaceState :=
  let pc := if tid then s.pcA else s.pcB
  let setPc := fun (n : ℕ) (st : RaceState) =>
    if tid then { st with pcA := n } else { st with pcB := n }
  let setRet := fun (v : Option ℕ) (st : RaceState) =>
    if tid then { st with retA := v } else { st with retB := v }
  match pc with
  | 0 =>
    match s.cache with
    | some v => setRet (some v) (setPc 4 s)
    | none => setPc 1 s
  | 1 => setPc 2 { s with builds := s.builds + 1 }
  | 2 => setPc 3 { s with cache := some (if tid then 1 else 2) }
  | 3 => setRet s.cache (setPc 4 s)
  | _ => s

/-- Run a schedule (the sequence of thread ids granted the next step). -/
def runRace (sched : List Bool) (s : RaceState) : RaceState :=
  sched.foldl (fun st t => loadModelStep t st) s

/-- The racing schedule: both threads pass the cache check before either
has inserted, then each completes the whole load path. -/
def raceSched : List Bool :=
  [true, false, true, true, true, false, false, false]

/-! Spec-side definitions used to compare the code against the wording of
the claims (refinement comparisons), plus concrete witness data. -/

/-- Per-chunk sample count of a `synthesize` call: what each chunk
contributes to the final buffer (zero for a skipped empty text chunk). -/
def chunkSamples (m : Model) (cfg : EngineCfg) (ch : Chunk) : ℕ :=
  if ch.isSilence then silenceSamples cfg.samplingRate (ch.silDur.getD 0)
  else if (stripWS ch.text).isEmpty then 0
  else (m.synthChunk (m.preprocess ch.text) ch.alpha).length

/-- Modelled from the claim's words (C3): the input text with every
occurrence of a speed tag or a silence tag deleted in place, the tags
located with the same scanners as the code. -/
def stripTagsGo : ℕ → List Char → List Char
  | 0, s => s
  | _ + 1, [] => []
  | f + 1, c :: cs =>
    match matchAlphaAt (c :: cs) with
    | some (_, rest) => stripTagsGo f rest
    | none =>
      match matchSilAt (c :: cs) with
      | some (_, _, rest) => stripTagsGo f rest
      | none => c :: stripTagsGo f cs

/-- Modelled from the claim's words (C3): delete all tags. -/
def stripTags (s : List Char) : List Char := stripTagsGo s.length s

/-- Modelled from the claim's words (C3): the input text with all tags
removed and run-on whitespace collapsed to single spaces. -/
def removeTagsCollapse (s : List Char) : List Char :=
  joinWords (splitWS (stripTags s))

/-- Replace a period by a space: the amended C3 reference transformation
treats the literal period, like a tag, as a separator that segmentation
consumes. -/
def dotToSpace (c : Char) : Char := if c = '.' then ' ' else c

/-- Amended C3 reference transformation: the input with periods (and, via
the hypotheses under which it is proved, tags) acting as word boundaries
and run-on whitespace collapsed. -/
def dotsCollapsed (s : List Char) : List Char :=
  joinWords (splitWS (s.map dotToSpace))

/-- The text fields of the non-silence chunks, in order. -/
def nonSilenceTexts (L : List Chunk) : List (List Char) :=
  (L.filter fun ch => ch.isSilence = false).map Chunk.text

/-- Concrete store configuration for witnesses: a configured remote whose
listing oracle would offer a blob for every prefix, so that any remote
interaction would be observable. -/
def wStoreCfg : StoreCfg :=
  { modelsDir := "/models", gcsConfigured := true,
    gcsBlobs := fun p => [p ++ "/x"] }

/-- Concrete filesystem for witnesses: the full acoustic-model manifest
for (hindi, male) and the full vocoder manifest under the
language-specific vocoder directory. -/
def wFs : Fs :=
  modelRequiredFiles.map (pjoin (get_model_path wStoreCfg "hindi" "male")) ++
    vocoderRequiredFiles.map (pjoin "/models/vocoder/male/hindi")

/-- Concrete parsed `config.yaml` content for the C10 witness: the stats
entries as the relative paths a shipped archive would contain. -/
def wYaml : YamlCfg :=
  { featsStats := "feats_stats.npz", pitchStats := "pitch_stats.npz",
    energyStats := "energy_stats.npz", rest := [("tts", "fastspeech2")] }

/-- Concrete yaml store for the C10 witness: only the model's
`config.yaml` is present. -/
def wYamlStore : YamlStore := fun p =>
  if p = pjoin (get_model_path wStoreCfg "hindi" "male") "config.yaml" then
    some wYaml
  else none

/-- Trivial model triple for witnesses whose synthesis function is never
consulted. -/
def wModel0 : Model := ⟨id, fun _ _ => []⟩

/-- Small model triple for the C2 witness: every chunk synthesises to two
samples. -/
def wModel2 : Model := ⟨id, fun _ _ => [3, 4]⟩

/-! Helper lemmas (shared between claim proofs; no claim theorem is used
by any other proof). -/

/-- Bridge: the kernel-computable form of the millisecond conversion is
the division by 1000 of the Python source. -/
theorem silDuration_ms (v : ℚ) : silDuration v true = v / 1000 := by
  have hd : ((v.den : ℚ)) ≠ 0 := Nat.cast_ne_zero.mpr v.den_nz
  rw [silDuration, if_pos rfl, Rat.mkRat_eq_div]
  push_cast
  rw [← div_div, Rat.num_div_den v]

/-- Bridge: the kernel-computable product with a natural is the rational
product. -/
theorem mulNatQ_eq (q : ℚ) (n : ℕ) : mulNatQ q n = q * n := by
  have hd : ((q.den : ℚ)) ≠ 0 := Nat.cast_ne_zero.mpr q.den_nz
  rw [mulNatQ, Rat.mkRat_eq_div]
  push_cast
  rw [mul_comm (q.num : ℚ) (n : ℚ), mul_div_assoc (n : ℚ), Rat.num_div_den q,
    mul_comm]

/-- Bridge: on non-negative rationals the kernel-computable truncation is
the floor (hence also Python `int`, which truncates toward zero). -/
theorem intTrunc_eq_floor (q : ℚ) (h : 0 ≤ q) : (intTrunc q : ℤ) = ⌊q⌋ := by
  have hn : 0 ≤ q.num := Rat.num_nonneg.mpr h
  rw [intTrunc, Rat.floor_def]
  push_cast [Int.toNat_of_nonneg hn]
  rfl

/-- Local-hit early return of `ensure_model`: if the manifest is already
present, it succeeds with no filesystem change and no remote event. -/
theorem ensure_model_local_hit (cfg : StoreCfg) (fs : Fs) (l g : String)
    (h : model_exists_locally cfg fs l g = true) :
    ensure_model cfg fs l g = (true, "Model exists locally", fs, []) := by
  simp [ensure_model, h]

/-- Local-hit early return of `ensure_vocoder`. -/
theorem ensure_vocoder_local_hit (cfg : StoreCfg) (fs : Fs) (l g : String)
    (h : vocoder_exists_locally cfg fs l g = true) :
    ensure_vocoder cfg fs l g = (true, "Vocoder exists locally", fs, []) := by
  simp [ensure_vocoder, h]

/-- A present acoustic-model manifest contains each required file. -/
theorem model_exists_mem (cfg : StoreCfg) (fs : Fs) (l g : String)
    (h : model_exists_locally cfg fs l g = true) :
    ∀ f ∈ modelRequiredFiles, pjoin (get_model_path cfg l g) f ∈ fs := by
  intro f hf
  have := (List.all_eq_true.mp h) f hf
  exact of_decide_eq_true this

/-- Generic: the flattened length of a `filterMap` of buffers is the sum
of the per-element buffer lengths (zero for skipped elements). -/
theorem flatten_filterMap_length (f : α → Option (List β)) (l : List α) :
    (List.filterMap f l).flatten.length =
      (l.map fun x => ((f x).map List.length).getD 0).sum := by
  induction l with
  | nil => rfl
  | cons x t ih => cases hfx : f x <;> simp [List.filterMap_cons, hfx, ih]

/-- The sample count of a chunk's buffer is `chunkSamples`. -/
theorem chunkSamples_eq (m : Model) (cfg : EngineCfg) (ch : Chunk) :
    ((chunkSeg m cfg ch).map List.length).getD 0 = chunkSamples m cfg ch := by
  by_cases hs : ch.isSilence = true
  · simp [chunkSeg, chunkSamples, hs]
  · by_cases he : (stripWS ch.text).isEmpty = true
    · simp [chunkSeg, chunkSamples, hs, he]
    · simp [chunkSeg, chunkSamples, hs, he]

/-- The length of the full audio buffer is the sum of the per-chunk
sample counts, in chunk order. -/
theorem segsOf_flatten_length (m : Model) (cfg : EngineCfg)
    (chunks : List Chunk) :
    (segsOf m cfg chunks).flatten.length =
      (chunks.map (chunkSamples m cfg)).sum := by
  rw [segsOf, flatten_filterMap_length]
  exact congrArg List.sum
    (List.map_congr_left fun ch _ => chunkSamples_eq m cfg ch)

/-- The truncation of a natural number cast to the rationals is itself. -/
theorem intTrunc_natCast (n : ℕ) : intTrunc ((n : ℕ) : ℚ) = n := by
  simp [intTrunc, Rat.num_natCast, Rat.den_natCast]

/-! Claim theorems. -/

/-- C1: the claim says concurrent `load_model` calls for one uncached key
perform exactly one underlying model construction under a single per-key
load lock. The code has no such lock (`TTSEngine.load_model` lines 158-184
is lockless; `ModelStore` locks only the individual downloads), and the
interleaving in which both callers pass the cache check before either
inserts performs the full construction twice and hands the two callers
distinct handles. This theorem evaluates the race model at that schedule. -/
theorem load_model_race_double_build :
    (runRace raceSched raceInit).builds = 2 ∧
    (runRace raceSched raceInit).retA ≠ (runRace raceSched raceInit).retB := by
  decide

/-- C7: an input longer than the configured maximum is rejected with the
validation error before any model load and before any segmentation: the
result is this error for every possible outcome of `load_model` and
whatever the text would segment to. -/
theorem oversized_input_rejected_before_load
    (cfg : EngineCfg) (load : Except String Model) (text : List Char) (a : ℚ)
    (h : cfg.maxTextLength < text.length) :
    synthesize cfg load text a =
      .error (.tooLong text.length cfg.maxTextLength) := by
  simp [synthesize, h]

/-- C7 witness: a three-character text against a two-character maximum,
with a failed load outcome that is never consulted. -/
theorem oversized_input_rejected_before_load_witness :
    (2 : ℕ) < (str "abc").length ∧
    synthesize ⟨22050, 2⟩ (.error "never loaded") (str "abc") 1 =
      .error (.tooLong (str "abc").length 2) :=
  ⟨by decide,
    oversized_input_rejected_before_load ⟨22050, 2⟩ (.error "never loaded")
      (str "abc") 1 (by decide)⟩

/-- C9: for a key whose manifest files already exist locally,
`ensure_model` and `ensure_vocoder` succeed immediately: no remote
listing, no download, and no filesystem change, for every remote
configuration and listing oracle. -/
theorem ensure_local_hit_no_remote (cfg : StoreCfg) (fs : Fs) (l g : String)
    (hm : model_exists_locally cfg fs l g = true)
    (hv : vocoder_exists_locally cfg fs l g = true) :
    ensure_model cfg fs l g = (true, "Model exists locally", fs, []) ∧
    ensure_vocoder cfg fs l g = (true, "Vocoder exists locally", fs, []) :=
  ⟨ensure_model_local_hit cfg fs l g hm, ensure_vocoder_local_hit cfg fs l g hv⟩

/-- C9 witness: a concrete filesystem holding the full (hindi, male)
model and vocoder manifests, with a configured remote whose oracle would
offer blobs for any prefix. -/
theorem ensure_local_hit_no_remote_witness :
    model_exists_locally wStoreCfg wFs "hindi" "male" = true ∧
    vocoder_exists_locally wStoreCfg wFs "hindi" "male" = true ∧
    ensure_model wStoreCfg wFs "hindi" "male" =
      (true, "Model exists locally", wFs, []) ∧
    ensure_vocoder wStoreCfg wFs "hindi" "male" =
      (true, "Vocoder exists locally", wFs, []) :=
  ⟨by decide, by decide,
    ensure_local_hit_no_remote wStoreCfg wFs "hindi" "male" (by decide)
      (by decide)⟩

/-- C5: `<sil=500ms>` segments to a single silence chunk of 0.5 seconds
and `<sil=2s>` to one of 2.0 seconds, for every default speed; and the
unit conversion divides a millisecond value by 1000 and keeps a second
value unchanged. -/
theorem sil_tag_duration_conversion :
    (∀ d : ℚ, extract_text_alpha_chunks (str "<sil=500ms>") d =
      some [⟨[], d, true, some (1 / 2)⟩]) ∧
    (∀ d : ℚ, extract_text_alpha_chunks (str "<sil=2s>") d =
      some [⟨[], d, true, some 2⟩]) ∧
    (∀ v : ℚ, silDuration v true = v / 1000 ∧ silDuration v false = v) := by
  have h12 : (1 / 2 : ℚ) = mkRat 1 2 := by rw [Rat.mkRat_eq_div]; norm_num
  refine ⟨fun d => ?_, fun d => rfl, fun v => ⟨silDuration_ms v, rfl⟩⟩
  rw [h12]
  rfl

/-- C2 counterexample: the claim says a silence chunk of duration d emits
`round(d * sampleRate)` zero samples. The code (line 311) uses `int(...)`,
which truncates: a 0.0003-second silence at 22050 Hz emits
`int(6.615) = 6` samples, while `round(6.615) = 7`. -/
theorem silence_sample_count_round_counterexample :
    extract_text_alpha_chunks (str "<sil=0.0003s>") 1 =
      some [⟨[], 1, true, some (mkRat 3 10000)⟩] ∧
    (mkRat 3 10000 : ℚ) = 3 / 10000 ∧
    synthesize ⟨22050, 5000⟩ (.ok wModel0) (str "<sil=0.0003s>") 1 =
      .ok (List.replicate 6 (0 : ℤ)) ∧
    round ((3 / 10000 : ℚ) * 22050) = 7 ∧
    (6 : ℕ) ≠ 7 := by
  refine ⟨rfl, by rw [Rat.mkRat_eq_div]; norm_num, rfl, ?_, by decide⟩
  have h : (3 / 10000 : ℚ) * 22050 = 1323 / 200 := by norm_num
  rw [h, round_eq]
  norm_num

/-- C2 amended: for every silence chunk of duration d the code emits
exactly `int(d * sampleRate)` zero samples -- truncation toward zero (the
floor, durations being non-negative) rather than `round` -- and the total
output length is the sum of each non-silence chunk's synthesized length
plus each silence chunk's truncated sample count, in chunk order. -/
theorem synthesize_output_length_truncated_silence
    (cfg : EngineCfg) (m : Model) (text : List Char) (a : ℚ)
    (chunks : List Chunk)
    (hlen : text.length ≤ cfg.maxTextLength)
    (hex : extract_text_alpha_chunks text a = some chunks)
    (hne : (segsOf m cfg chunks).isEmpty = false) :
    synthesize cfg (.ok m) text a = .ok (segsOf m cfg chunks).flatten ∧
    (segsOf m cfg chunks).flatten.length =
      (chunks.map (chunkSamples m cfg)).sum ∧
    (∀ ch ∈ chunks, ch.isSilence = true →
      chunkSamples m cfg ch =
        intTrunc (ch.silDur.getD 0 * (cfg.samplingRate : ℚ))) ∧
    (∀ q : ℚ, 0 ≤ q → (intTrunc q : ℤ) = ⌊q⌋) := by
  refine ⟨?_, segsOf_flatten_length m cfg chunks, ?_, intTrunc_eq_floor⟩
  · have h1 : ¬ cfg.maxTextLength < text.length := by omega
    simp [synthesize, h1, hex, hne]
  · intro ch _ hs
    simp [chunkSamples, hs, silenceSamples, mulNatQ_eq]

/-- C2 amended witness: the text "hi. <sil=1ms>" at 22050 Hz with a model
synthesizing two samples per chunk: output is the 2 synthesized samples
followed by `int(0.001 * 22050) = 22` zeros. -/
theorem synthesize_output_length_truncated_silence_witness :
    (str "hi. <sil=1ms>").length ≤ (5000 : ℕ) ∧
    extract_text_alpha_chunks (str "hi. <sil=1ms>") 1 =
      some [⟨str "hi", 1, false, none⟩, ⟨[], 1, true, some (mkRat 1 1000)⟩] ∧
    (segsOf wModel2 ⟨22050, 5000⟩
      [⟨str "hi", 1, false, none⟩, ⟨[], 1, true, some (mkRat 1 1000)⟩]).isEmpty
      = false ∧
    (synthesize ⟨22050, 5000⟩ (.ok wModel2) (str "hi. <sil=1ms>") 1 =
      .ok (segsOf wModel2 ⟨22050, 5000⟩
        [⟨str "hi", 1, false, none⟩,
         ⟨[], 1, true, some (mkRat 1 1000)⟩]).flatten ∧
     (segsOf wModel2 ⟨22050, 5000⟩
        [⟨str "hi", 1, false, none⟩,
         ⟨[], 1, true, some (mkRat 1 1000)⟩]).flatten.length =
       ([⟨str "hi", 1, false, none⟩,
         ⟨[], 1, true, some (mkRat 1 1000)⟩].map
           (chunkSamples wModel2 ⟨22050, 5000⟩)).sum ∧
     (∀ ch ∈ [(⟨str "hi", 1, false, none⟩ : Chunk),
              ⟨[], 1, true, some (mkRat 1 1000)⟩], ch.isSilence = true →
       chunkSamples wModel2 ⟨22050, 5000⟩ ch =
         intTrunc (ch.silDur.getD 0 * ((22050 : ℕ) : ℚ))) ∧
     (∀ q : ℚ, 0 ≤ q → (intTrunc q : ℤ) = ⌊q⌋)) :=
  ⟨by decide, by decide, by decide,
    synthesize_output_length_truncated_silence ⟨22050, 5000⟩ wModel2
      (str "hi. <sil=1ms>") 1
      [⟨str "hi", 1, false, none⟩, ⟨[], 1, true, some (mkRat 1 1000)⟩]
      (by decide) (by decide) (by decide)⟩

/-- C8: if no chunk contributes an audio buffer (the code's
`if not audio_arr`, e.g. every chunk empty), `synthesize` returns the
fixed half-second zero buffer of `int(0.5 * sampleRate)` samples rather
than an empty result; on an even sample rate that count is exactly
`0.5 * sampleRate` (11025 at 22050 Hz). -/
theorem empty_output_half_second_silence
    (cfg : EngineCfg) (m : Model) (text : List Char) (a : ℚ)
    (chunks : List Chunk)
    (hlen : text.length ≤ cfg.maxTextLength)
    (hex : extract_text_alpha_chunks text a = some chunks)
    (hempty : segsOf m cfg chunks = []) :
    synthesize cfg (.ok m) text a =
      .ok (List.replicate (halfSecondSamples cfg.samplingRate) (0 : ℤ)) ∧
    (2 ∣ cfg.samplingRate →
      (halfSecondSamples cfg.samplingRate : ℚ) =
        1 / 2 * (cfg.samplingRate : ℚ)) ∧
    halfSecondSamples 22050 = 11025 := by
  refine ⟨?_, ?_, by decide⟩
  · have h1 : ¬ cfg.maxTextLength < text.length := by omega
    simp [synthesize, h1, hex, hempty]
  · rintro ⟨k, h2⟩
    have hk : mkRat ((2 * k : ℕ) : ℤ) 2 = ((k : ℕ) : ℚ) := by
      rw [Rat.mkRat_eq_div]
      push_cast
      rw [mul_comm, mul_div_assoc]
      norm_num
    have h3 : halfSecondSamples (2 * k) = k := by
      rw [halfSecondSamples, hk, intTrunc_natCast]
    rw [h2, h3]
    push_cast
    ring

/-- C8 witness: the empty text segments to no chunks at all, and the call
returns the 11025-sample zero buffer at 22050 Hz. -/
theorem empty_output_half_second_silence_witness :
    (str "").length ≤ (5000 : ℕ) ∧
    extract_text_alpha_chunks (str "") 1 = some [] ∧
    segsOf wModel0 ⟨22050, 5000⟩ [] = [] ∧
    (synthesize ⟨22050, 5000⟩ (.ok wModel0) (str "") 1 =
      .ok (List.replicate (halfSecondSamples 22050) (0 : ℤ)) ∧
     (2 ∣ (22050 : ℕ) →
       (halfSecondSamples 22050 : ℚ) = 1 / 2 * ((22050 : ℕ) : ℚ)) ∧
     halfSecondSamples 22050 = 11025) :=
  ⟨by decide, by decide, by decide,
    empty_output_half_second_silence ⟨22050, 5000⟩ wModel0 (str "") 1 []
      (by decide) (by decide) (by decide)⟩

/-- C10: on a load whose model artifacts are present, `load_fastspeech2`
rewrites the model's `config.yaml` on local disk, replacing exactly the
three normalization-statistics entries with absolute paths under the
model directory before constructing the handle (the handle is built from
the rewritten file); every other entry and every other file is untouched,
and whenever the stored stats entry differed from the absolute path the
on-disk content changes, so loading is not read-only. -/
theorem load_fastspeech2_rewrites_config
    (cfg : StoreCfg) (fs : Fs) (ys : YamlStore) (dev l g : String)
    (c : YamlCfg)
    (hm : model_exists_locally cfg fs l g = true)
    (hy : ys (pjoin (get_model_path cfg l g) "config.yaml") = some c) :
    load_fastspeech2 cfg fs ys dev l g =
      .ok (⟨rewriteStats (get_model_path cfg l g) c,
            pjoin (get_model_path cfg l g) "model.pth", dev⟩, fs,
           fun p =>
             if p = pjoin (get_model_path cfg l g) "config.yaml" then
               some (rewriteStats (get_model_path cfg l g) c)
             else ys p, []) ∧
    (rewriteStats (get_model_path cfg l g) c).featsStats =
      pjoin (get_model_path cfg l g) "feats_stats.npz" ∧
    (rewriteStats (get_model_path cfg l g) c).pitchStats =
      pjoin (get_model_path cfg l g) "pitch_stats.npz" ∧
    (rewriteStats (get_model_path cfg l g) c).energyStats =
      pjoin (get_model_path cfg l g) "energy_stats.npz" ∧
    (rewriteStats (get_model_path cfg l g) c).rest = c.rest ∧
    (c.featsStats ≠ pjoin (get_model_path cfg l g) "feats_stats.npz" →
      rewriteStats (get_model_path cfg l g) c ≠ c) := by
  refine ⟨?_, rfl, rfl, rfl, rfl, ?_⟩
  · have hc : pjoin (get_model_path cfg l g) "config.yaml" ∈ fs :=
      model_exists_mem cfg fs l g hm "config.yaml" (by simp [modelRequiredFiles])
    have hp : pjoin (get_model_path cfg l g) "model.pth" ∈ fs :=
      model_exists_mem cfg fs l g hm "model.pth" (by simp [modelRequiredFiles])
    rw [load_fastspeech2, ensure_model_local_hit cfg fs l g hm]
    simp [hc, hp, hy]
  · intro hne heq
    exact hne (by
      simpa [rewriteStats] using (congrArg YamlCfg.featsStats heq).symm)

/-- C10 witness: a concrete present manifest whose `config.yaml` holds
relative stats paths; the load rewrites them to the absolute paths. -/
theorem load_fastspeech2_rewrites_config_witness :
    model_exists_locally wStoreCfg wFs "hindi" "male" = true ∧
    wYamlStore (pjoin (get_model_path wStoreCfg "hindi" "male") "config.yaml")
      = some wYaml ∧
    (load_fastspeech2 wStoreCfg wFs wYamlStore "cpu" "hindi" "male" =
      .ok (⟨rewriteStats (get_model_path wStoreCfg "hindi" "male") wYaml,
            pjoin (get_model_path wStoreCfg "hindi" "male") "model.pth",
            "cpu"⟩, wFs,
           fun p =>
             if p = pjoin (get_model_path wStoreCfg "hindi" "male")
                 "config.yaml" then
               some (rewriteStats (get_model_path wStoreCfg "hindi" "male")
                 wYaml)
             else wYamlStore p, []) ∧
     (rewriteStats (get_model_path wStoreCfg "hindi" "male") wYaml).featsStats
        = pjoin (get_model_path wStoreCfg "hindi" "male") "feats_stats.npz" ∧
     (rewriteStats (get_model_path wStoreCfg "hindi" "male") wYaml).pitchStats
        = pjoin (get_model_path wStoreCfg "hindi" "male") "pitch_stats.npz" ∧
     (rewriteStats (get_model_path wStoreCfg "hindi" "male") wYaml).energyStats
        = pjoin (get_model_path wStoreCfg "hindi" "male") "energy_stats.npz" ∧
     (rewriteStats (get_model_path wStoreCfg "hindi" "male") wYaml).rest =
        wYaml.rest ∧
     (wYaml.featsStats ≠
        pjoin (get_model_path wStoreCfg "hindi" "male") "feats_stats.npz" →
       rewriteStats (get_model_path wStoreCfg "hindi" "male") wYaml ≠ wYaml)) :=
  ⟨by decide, by decide,
    load_fastspeech2_rewrites_config wStoreCfg wFs wYamlStore "cpu" "hindi"
      "male" wYaml (by decide) (by decide)⟩

/-- A single failing element makes the whole monadic map fail. -/
theorem mapOptionM_eq_none (f : α → Option β) (l : List α) (x : α)
    (hx : x ∈ l) (hf : f x = none) : mapOptionM f l = none := by
  induction l with
  | nil => cases hx
  | cons a t ih =>
    rcases List.mem_cons.mp hx with h | h
    · subst h
      simp [mapOptionM, hf]
    · cases hfa : f a
      · simp [mapOptionM, hfa]
      · simp [mapOptionM, hfa, ih h]

/-- A malformed silence value among the matches fails the duration
parse. -/
theorem silDurations_none {ms : List (List Char × Bool)}
    (h : ∃ m ∈ ms, parseFloatQ m.1 = none) : silDurations ms = none := by
  obtain ⟨x, hx, hpx⟩ := h
  exact mapOptionM_eq_none _ ms x hx (by simp [hpx])

/-- A malformed silence value in a block fails the whole block, at every
active speed. -/
theorem processBlock_bad_sil {b : List Char} (a : ℚ)
    (h : ∃ m ∈ findSil b, parseFloatQ m.1 = none) :
    processBlock b a = none := by
  simp [processBlock, silDurations_none h]

/-- A malformed speed capture, or a block failing at every speed, fails
the pair processing. -/
theorem processPairs_none {ps : List (List Char × List Char)}
    (h : ∃ p ∈ ps, parseFloatQ p.1 = none ∨ ∀ a, processBlock p.2 a = none) :
    processPairs ps = none := by
  induction ps with
  | nil => obtain ⟨p, hp, _⟩ := h; cases hp
  | cons q t ih =>
    obtain ⟨p, hp, hbad⟩ := h
    rcases List.mem_cons.mp hp with rfl | hpt
    · rcases hbad with hc | hb
      · simp [processPairs, hc]
      · cases hc : parseFloatQ p.1
        · simp [processPairs, hc]
        · simp [processPairs, hc, hb]
    · cases hc : parseFloatQ q.1 with
      | none => simp [processPairs, hc]
      | some a =>
        cases hpb : processBlock q.2 a with
        | none => simp [processPairs, hc, hpb]
        | some cb => simp [processPairs, hc, hpb, ih ⟨p, hpt, hbad⟩]

/-- C4: a tag whose captured numeric value is malformed (fails Python
`float`, e.g. `1.2.3`) makes the whole segmentation call fail -- no chunk
list is produced and no default is substituted -- whether the bad value
sits in a speed tag (a capture of the alpha split) or in a silence tag of
any block. -/
theorem malformed_tag_value_fails_segmentation (text : List Char) (d : ℚ)
    (h : (∃ p ∈ (splitAlpha text).2, parseFloatQ p.1 = none) ∨
         (∃ b ∈ (splitAlpha text).1 :: (splitAlpha text).2.map Prod.snd,
            ∃ m ∈ findSil b, parseFloatQ m.1 = none)) :
    extract_text_alpha_chunks text d = none := by
  cases hpb : processBlock (splitAlpha text).1 d with
  | none => simp [extract_text_alpha_chunks, hpb]
  | some c0 =>
    have hpp : processPairs (splitAlpha text).2 = none := by
      rcases h with ⟨p, hp, hpn⟩ | ⟨b, hb, hbad⟩
      · exact processPairs_none ⟨p, hp, Or.inl hpn⟩
      · rcases List.mem_cons.mp hb with rfl | hb2
        · rw [processBlock_bad_sil d hbad] at hpb
          cases hpb
        · obtain ⟨p, hp, hpeq⟩ := List.mem_map.mp hb2
          exact processPairs_none
            ⟨p, hp, Or.inr fun a => processBlock_bad_sil a (hpeq ▸ hbad)⟩
    simp [extract_text_alpha_chunks, hpb, hpp]

/-- C4 witness: `<alpha=1.2.3>x` carries the capture `1.2.3`, which
`float` rejects, and segmentation of the whole input fails. -/
theorem malformed_tag_value_fails_segmentation_witness :
    (∃ p ∈ (splitAlpha (str "<alpha=1.2.3>x")).2, parseFloatQ p.1 = none) ∧
    extract_text_alpha_chunks (str "<alpha=1.2.3>x") 1 = none :=
  ⟨by decide,
    malformed_tag_value_fails_segmentation (str "<alpha=1.2.3>x") 1
      (Or.inl (by decide))⟩

/-- Every chunk produced by the word scan carries the active speed it was
run at. -/
theorem emitGo_alpha (phs : List (List Char × ℚ)) (a : ℚ) :
    ∀ (ws : List (List Char)) (buf : List (List Char)) (ch : Chunk),
      ch ∈ emitGo phs a buf ws → ch.alpha = a := by
  intro ws
  induction ws with
  | nil =>
    intro buf ch hch
    rw [emitGo] at hch
    by_cases hb : buf.isEmpty = true <;> simp [hb] at hch
    rw [hch]
  | cons w ws ih =>
    intro buf ch hch
    rw [emitGo] at hch
    cases hl : phLookup w phs with
    | none =>
      rw [hl] at hch
      exact ih (w :: buf) ch hch
    | some dur =>
      rw [hl] at hch
      rcases List.mem_append.mp hch with h1 | h2
      · by_cases hb : buf.isEmpty = true <;> simp [hb] at h1
        rw [h1]
      · rcases List.mem_cons.mp h2 with rfl | h3
        · rfl
        · exact ih [] ch h3

/-- Every chunk of a processed block carries that block's speed. -/
theorem processBlock_alpha {b : List Char} {a : ℚ} {L : List Chunk}
    (h : processBlock b a = some L) : ∀ ch ∈ L, ch.alpha = a := by
  intro ch hch
  rw [processBlock] at h
  cases hsd : silDurations (findSil b) with
  | none => rw [hsd] at h; cases h
  | some durs =>
    rw [hsd] at h
    obtain rfl := Option.some.inj h
    obtain ⟨sent, _, hm⟩ := List.mem_flatMap.mp hch
    exact emitGo_alpha _ a _ [] ch hm

/-- Every chunk of the processed pairs carries the value of its own
block's capture. -/
theorem processPairs_alpha {ps : List (List Char × List Char)}
    {L : List Chunk} (h : processPairs ps = some L) :
    ∀ ch ∈ L, ∃ p ∈ ps, parseFloatQ p.1 = some ch.alpha := by
  induction ps generalizing L with
  | nil =>
    rw [processPairs] at h
    obtain rfl := Option.some.inj h
    intro ch hch
    cases hch
  | cons q t ih =>
    rw [processPairs] at h
    cases hc : parseFloatQ q.1 with
    | none => rw [hc] at h; cases h
    | some a =>
      simp only [hc] at h
      cases hpb : processBlock q.2 a with
      | none => simp only [hpb] at h; cases h
      | some cb =>
        simp only [hpb] at h
        cases hpt : processPairs t with
        | none => simp only [hpt, Option.map_none] at h; cases h
        | some lt =>
          simp only [hpt, Option.map_some] at h
          obtain rfl := Option.some.inj h
          intro ch hch
          rcases List.mem_append.mp hch with h1 | h2
          · exact ⟨q, List.mem_cons_self q t,
              by rw [hc, processBlock_alpha hpb ch h1]⟩
          · obtain ⟨p, hp, he⟩ := ih hpt ch h2
            exact ⟨p, List.mem_cons_of_mem q hp, he⟩

/-- C6: every chunk's speed is either the default (chunks of the portion
before the first tag) or the parsed value of one of the input's speed
captures; the portion before the first tag is segmented at the default
speed and a tag governs all following text up to the next tag, the latest
tag winning: `"<alpha=1.5>One. Two."` yields exactly two chunks, both at
speed 1.5, and with a leading untagged portion and a later tag the
chunks carry default, 1.5, 1.5 and then the later tag's 0.5. -/
theorem alpha_tag_scoping :
    (∀ (text : List Char) (d : ℚ) (L : List Chunk),
       extract_text_alpha_chunks text d = some L →
       ∀ ch ∈ L, ch.alpha = d ∨
         ∃ p ∈ (splitAlpha text).2, parseFloatQ p.1 = some ch.alpha) ∧
    (∀ d : ℚ, extract_text_alpha_chunks (str "<alpha=1.5>One. Two.") d =
       some [⟨str "One", 3 / 2, false, none⟩,
             ⟨str "Two", 3 / 2, false, none⟩]) ∧
    (∀ d : ℚ,
       extract_text_alpha_chunks
           (str "Zero. <alpha=1.5>One. Two. <alpha=0.5>Three.") d =
         some [⟨str "Zero", d, false, none⟩,
               ⟨str "One", 3 / 2, false, none⟩,
               ⟨str "Two", 3 / 2, false, none⟩,
               ⟨str "Three", 1 / 2, false, none⟩]) := by
  have h32 : (3 / 2 : ℚ) = mkRat 3 2 := by rw [Rat.mkRat_eq_div]; norm_num
  have h12 : (1 / 2 : ℚ) = mkRat 1 2 := by rw [Rat.mkRat_eq_div]; norm_num
  refine ⟨?_, fun d => by rw [h32]; rfl, fun d => by rw [h32, h12]; rfl⟩
  intro text d L hex ch hch
  rw [extract_text_alpha_chunks] at hex
  cases hpb : processBlock (splitAlpha text).1 d with
  | none => rw [hpb] at hex; cases hex
  | some c0 =>
    rw [hpb] at hex
    cases hpp : processPairs (splitAlpha text).2 with
    | none => rw [hpp] at hex; cases hex
    | some l1 =>
      rw [hpp] at hex
      obtain rfl := Option.some.inj hex
      rcases List.mem_append.mp hch with h1 | h2
      · exact Or.inl (processBlock_alpha hpb ch h1)
      · exact Or.inr (processPairs_alpha hpp ch h2)

/-- C6 witness: for the input `<alpha=2>hi` with default speed 1, the
single chunk's speed 2 is the parsed value of the input's speed capture
(and not the default). -/
theorem alpha_tag_scoping_witness :
    Chunk.alpha ⟨str "hi", 2, false, none⟩ = 1 ∨
      ∃ p ∈ (splitAlpha (str "<alpha=2>hi")).2,
        parseFloatQ p.1 = some (Chunk.alpha ⟨str "hi", 2, false, none⟩) :=
  alpha_tag_scoping.1 (str "<alpha=2>hi") 1 [⟨str "hi", 2, false, none⟩] rfl
    ⟨str "hi", 2, false, none⟩ (by decide)

/-- C3 counterexample: the claim says joining the non-silence texts with
single spaces reproduces the input with tags removed and whitespace
collapsed. Two concrete refutations: sentence-splitting deletes the
period ("a. b" rejoins to "a b", not "a. b"), and a tag acts as a word
boundary rather than vanishing in place ("x<sil=1s>y" rejoins to "x y",
while deleting the tag gives "xy"). -/
theorem roundtrip_period_counterexample :
    extract_text_alpha_chunks (str "a. b") 1 =
      some [⟨str "a", 1, false, none⟩, ⟨str "b", 1, false, none⟩] ∧
    joinWords (nonSilenceTexts
        [⟨str "a", 1, false, none⟩, ⟨str "b", 1, false, none⟩]) = str "a b" ∧
    removeTagsCollapse (str "a. b") = str "a. b" ∧
    str "a b" ≠ str "a. b" ∧
    extract_text_alpha_chunks (str "x<sil=1s>y") 1 =
      some [⟨str "x", 1, false, none⟩, ⟨[], 1, true, some 1⟩,
            ⟨str "y", 1, false, none⟩] ∧
    joinWords (nonSilenceTexts
        [⟨str "x", 1, false, none⟩, ⟨[], 1, true, some 1⟩,
         ⟨str "y", 1, false, none⟩]) = str "x y" ∧
    removeTagsCollapse (str "x<sil=1s>y") = str "xy" ∧
    str "x y" ≠ str "xy" := by
  decide

/-- A character other than the opening bracket can never start a speed
tag match. -/
theorem matchAlphaAt_cons_none {c : Char} (h : ¬ c = '<') (cs : List Char) :
    matchAlphaAt (c :: cs) = none := by
  have e : alphaLit = '<' :: str "alpha=" := rfl
  rw [matchAlphaAt, e, dropLit, if_neg fun hh => h hh.symm]

/-- A character other than the opening bracket can never start a silence
tag match. -/
theorem matchSilAt_cons_none {c : Char} (h : ¬ c = '<') (cs : List Char) :
    matchSilAt (c :: cs) = none := by
  have e : silLit = '<' :: str "sil=" := rfl
  rw [matchSilAt, e, dropLit, if_neg fun hh => h hh.symm]

/-- On bracket-free input the alpha split returns the whole input as the
single leading block. -/
theorem splitAlphaGo_noLt (f : ℕ) (s : List Char)
    (h : ∀ c ∈ s, c ≠ '<') : splitAlphaGo f s = (s, []) := by
  induction f generalizing s with
  | zero => rfl
  | succ f ih =>
    cases s with
    | nil => rfl
    | cons c cs =>
      rw [splitAlphaGo, matchAlphaAt_cons_none (h c (List.mem_cons_self c cs)) cs]
      simp [ih cs fun x hx => h x (List.mem_cons_of_mem c hx)]

/-- On bracket-free input there are no silence matches. -/
theorem findSilGo_noLt (f : ℕ) (s : List Char)
    (h : ∀ c ∈ s, c ≠ '<') : findSilGo f s = [] := by
  induction f generalizing s with
  | zero => rfl
  | succ f ih =>
    cases s with
    | nil => rfl
    | cons c cs =>
      rw [findSilGo, matchSilAt_cons_none (h c (List.mem_cons_self c cs)) cs]
      exact ih cs fun x hx => h x (List.mem_cons_of_mem c hx)

/-- A separator split is never the empty list of pieces. -/
theorem splitOnChar_ne_nil (sep : Char) (s : List Char) :
    splitOnChar sep s ≠ [] := by
  cases s with
  | nil => simp [splitOnChar]
  | cons c cs =>
    rw [splitOnChar]
    cases splitOnChar sep cs with
    | nil => simp
    | cons r rs =>
      by_cases hc : c = sep <;> simp [hc]

/-- Scanning an all-whitespace tail only flushes the pending word. -/
theorem splitWSGo_allspace (t : List Char)
    (h : ∀ c ∈ t, isSpaceCh c = true) :
    ∀ cur, splitWSGo cur t = if cur.isEmpty then [] else [cur.reverse] := by
  induction t with
  | nil => intro cur; rfl
  | cons c t ih =>
    intro cur
    rw [splitWSGo, if_pos (h c (List.mem_cons_self c t))]
    have ht := ih fun x hx => h x (List.mem_cons_of_mem c hx)
    by_cases hb : cur.isEmpty = true <;> simp [hb, ht]

/-- Appending all-whitespace characters does not change the word split. -/
theorem splitWSGo_append_space (s t : List Char)
    (h : ∀ c ∈ t, isSpaceCh c = true) :
    ∀ cur, splitWSGo cur (s ++ t) = splitWSGo cur s := by
  induction s with
  | nil =>
    intro cur
    rw [List.nil_append, splitWSGo_allspace t h cur]
    rfl
  | cons c s ih =>
    intro cur
    rw [List.cons_append, splitWSGo, splitWSGo]
    by_cases hc : isSpaceCh c = true <;> simp [hc, ih]

/-- Dropping leading whitespace does not change the word split. -/
theorem splitWS_dropWhile_space (s : List Char) :
    splitWS (s.dropWhile isSpaceCh) = splitWS s := by
  induction s with
  | nil => rfl
  | cons c cs ih =>
    by_cases hc : isSpaceCh c = true
    · rw [List.dropWhile_cons_of_pos hc, ih, splitWS, splitWS, splitWSGo,
        if_pos hc]
      simp
    · rw [List.dropWhile_cons_of_neg hc]

/-- Python `str.strip()` does not change the word split. -/
theorem splitWS_stripWS (s : List Char) :
    splitWS (stripWS s) = splitWS s := by
  rw [stripWS]
  have hdec := List.takeWhile_append_dropWhile (p := isSpaceCh)
    (l := (s.dropWhile isSpaceCh).reverse)
  have hu : s.dropWhile isSpaceCh =
      ((s.dropWhile isSpaceCh).reverse.dropWhile isSpaceCh).reverse ++
        ((s.dropWhile isSpaceCh).reverse.takeWhile isSpaceCh).reverse := by
    conv_lhs => rw [← List.reverse_reverse (s.dropWhile isSpaceCh), ← hdec]
    rw [List.reverse_append]
  have hsp : ∀ c ∈ ((s.dropWhile isSpaceCh).reverse.takeWhile
      isSpaceCh).reverse, isSpaceCh c = true := by
    intro c hc
    exact List.mem_takeWhile_imp (List.mem_reverse.mp hc)
  calc splitWS ((s.dropWhile isSpaceCh).reverse.dropWhile isSpaceCh).reverse
      = splitWS (s.dropWhile isSpaceCh) := by
        conv_rhs => rw [hu]
        exact (splitWSGo_append_space _ _ hsp []).symm
    _ = splitWS s := splitWS_dropWhile_space s

/-- With no placeholders the word scan emits a single text chunk holding
all the words (or nothing when there are none). -/
theorem emitGo_nil_ph (a : ℚ) :
    ∀ (ws buf : List (List Char)), emitGo [] a buf ws =
      if buf.reverse ++ ws = [] then []
      else [⟨joinWords (buf.reverse ++ ws), a, false, none⟩] := by
  intro ws
  induction ws with
  | nil =>
    intro buf
    rw [emitGo]
    cases buf <;> simp
  | cons w ws ih =>
    intro buf
    rw [emitGo]
    have hl : phLookup w [] = none := rfl
    rw [hl, ih (w :: buf)]
    simp [List.reverse_cons, List.append_assoc]

/-- Word-splitting the dot-to-space image of an input agrees with
word-splitting each period piece: the strengthened accumulator form. -/
theorem splitWSGo_dot_aux :
    ∀ (s cur r0 : List Char) (rs : List (List Char)),
      splitOnChar '.' s = r0 :: rs →
      splitWSGo cur (s.map dotToSpace) =
        splitWSGo cur r0 ++ rs.flatMap splitWS := by
  intro s
  induction s with
  | nil =>
    intro cur r0 rs h
    rw [splitOnChar] at h
    injection h with h1 h2
    subst h1; subst h2
    simp
  | cons c cs ih =>
    intro cur r0 rs h
    rw [splitOnChar] at h
    cases hsc : splitOnChar '.' cs with
    | nil => exact absurd hsc (splitOnChar_ne_nil '.' cs)
    | cons r rs' =>
      rw [hsc] at h
      replace h : (if c = '.' then [] :: r :: rs' else (c :: r) :: rs') =
          r0 :: rs := h
      by_cases hc : c = '.'
      · rw [if_pos hc] at h
        injection h with h1 h2
        subst h1; subst h2
        subst hc
        have hih := ih [] r rs' hsc
        have hd : dotToSpace '.' = ' ' := rfl
        have hs : isSpaceCh ' ' = true := rfl
        rw [List.map_cons, hd]
        by_cases hb : cur.isEmpty = true <;>
          simp [splitWSGo, hs, hb, hih, splitWS]
      · rw [if_neg hc] at h
        injection h with h1 h2
        subst h1; subst h2
        have hd : dotToSpace c = c := if_neg hc
        rw [List.map_cons, hd]
        by_cases hs : isSpaceCh c = true
        · have hih := ih [] r rs' hsc
          by_cases hb : cur.isEmpty = true <;>
            simp [splitWSGo, hs, hb, hih, splitWS]
        · have hih := ih (c :: cur) r rs' hsc
          simp [splitWSGo, hs, hih]

/-- Word-splitting the dot-to-space image equals word-splitting every
period piece in order. -/
theorem flatMap_splitWS_dot (s : List Char) :
    splitWS (s.map dotToSpace) = (splitOnChar '.' s).flatMap splitWS := by
  cases hsc : splitOnChar '.' s with
  | nil => exact absurd hsc (splitOnChar_ne_nil '.' s)
  | cons r0 rs =>
    rw [splitWS, splitWSGo_dot_aux s [] r0 rs hsc]
    rfl

/-- Joining onto a non-empty tail inserts a single space. -/
theorem joinWords_cons_ne (a : List Char) {l : List (List Char)}
    (hl : l ≠ []) : joinWords (a :: l) = a ++ ' ' :: joinWords l := by
  cases l with
  | nil => exact absurd rfl hl
  | cons b t => rfl

/-- Joining an append of two non-empty word lists inserts a single space
at the seam. -/
theorem joinWords_append_ne (a b : List (List Char)) (ha : a ≠ [])
    (hb : b ≠ []) :
    joinWords (a ++ b) = joinWords a ++ ' ' :: joinWords b := by
  induction a with
  | nil => exact absurd rfl ha
  | cons x xs ih =>
    cases xs with
    | nil =>
      rw [List.cons_append, List.nil_append, joinWords_cons_ne x hb]
      rfl
    | cons y ys =>
      have hxs : y :: ys ≠ [] := by simp
      have hne : (y :: ys) ++ b ≠ [] := by simp
      rw [List.cons_append, joinWords_cons_ne x hne, ih hxs,
        joinWords_cons_ne x hxs]
      simp

/-- The optional-singleton image of a piece list is empty exactly when
the word flatMap is. -/
theorem flatMap_tf_nil_iff (F : List Char → List (List Char))
    (ps : List (List Char)) :
    (ps.flatMap fun x => if F x = [] then [] else [joinWords (F x)]) = [] ↔
      ps.flatMap F = [] := by
  induction ps with
  | nil => simp
  | cons x t ih => by_cases hF : F x = [] <;> simp [hF, ih]

/-- Joining per-piece joins equals joining all the words, empties
skipped. -/
theorem joinWords_opt (F : List Char → List (List Char)) :
    ∀ ps : List (List Char),
      joinWords
          (ps.flatMap fun x => if F x = [] then [] else [joinWords (F x)]) =
        joinWords (ps.flatMap F) := by
  intro ps
  induction ps with
  | nil => rfl
  | cons x t ih =>
    rw [List.flatMap_cons, List.flatMap_cons]
    by_cases hF : F x = []
    · simp [hF, ih]
    · cases hrec : t.flatMap F with
      | nil =>
        have h1 : (t.flatMap fun x =>
            if F x = [] then [] else [joinWords (F x)]) = [] :=
          (flatMap_tf_nil_iff F t).mpr hrec
        rw [h1, if_neg hF, List.append_nil, List.append_nil]
        rfl
      | cons b bs =>
        have h2 : (t.flatMap fun x =>
            if F x = [] then [] else [joinWords (F x)]) ≠ [] := by
          rw [Ne, flatMap_tf_nil_iff F t, hrec]
          simp
        rw [if_neg hF, List.singleton_append, joinWords_cons_ne _ h2, ih,
          hrec, joinWords_append_ne (F x) (b :: bs) hF (by simp)]

/-- The chunk stream of a placeholder-free block: one text chunk per
period piece with at least one word, in order. -/
theorem emit_pieces (d : ℚ) : ∀ pieces : List (List Char),
    (((pieces.map stripWS).filter fun t => ¬ t.isEmpty).flatMap
        fun sent => emitGo [] d [] (splitWS sent)) =
      pieces.flatMap fun x =>
        if splitWS x = [] then []
        else [⟨joinWords (splitWS x), d, false, none⟩] := by
  intro pieces
  induction pieces with
  | nil => rfl
  | cons x ps ih =>
    rw [List.map_cons, List.flatMap_cons]
    by_cases hP : (stripWS x).isEmpty = true
    · have hWx : splitWS x = [] := by
        rw [← splitWS_stripWS x, List.isEmpty_iff.mp hP]
        rfl
      rw [List.filter_cons_of_neg (by simp [hP]), if_pos hWx,
        List.nil_append]
      exact ih
    · rw [List.filter_cons_of_pos (by simp [hP]), List.flatMap_cons,
        splitWS_stripWS x, emitGo_nil_ph d (splitWS x) [],
        List.reverse_nil, List.nil_append, ih]

/-- The non-silence texts of a placeholder-free chunk stream are the
per-piece joins. -/
theorem nonSilenceTexts_pieces (d : ℚ) (pieces : List (List Char)) :
    nonSilenceTexts (pieces.flatMap fun x =>
        if splitWS x = [] then []
        else [⟨joinWords (splitWS x), d, false, none⟩]) =
      pieces.flatMap fun x =>
        if splitWS x = [] then [] else [joinWords (splitWS x)] := by
  induction pieces with
  | nil => rfl
  | cons x ps ih =>
    rw [List.flatMap_cons, List.flatMap_cons]
    by_cases hF : splitWS x = []
    · simpa [hF, nonSilenceTexts] using ih
    · simp only [if_neg hF, nonSilenceTexts, List.filter_append,
        List.map_append] at ih ⊢
      rw [ih]
      rfl

/-- C3 amended: joining the non-silence texts with single spaces
reproduces the input with each tag and each period acting as a word
boundary (removed, with a break left in its place) and run-on whitespace
collapsed: proved for every bracket-free input (where it also shows the
period, not mentioned by the original claim, is consumed), and on a
representative input carrying a silence tag and a speed tag. -/
theorem roundtrip_tags_as_separators :
    (∀ (s : List Char) (d : ℚ), (∀ c ∈ s, c ≠ '<') →
       ∃ L, extract_text_alpha_chunks s d = some L ∧
         joinWords (nonSilenceTexts L) =
           joinWords (splitWS (s.map dotToSpace))) ∧
    (∀ d : ℚ,
       extract_text_alpha_chunks (str "x<sil=1s>y. z <alpha=2>w.") d =
         some [⟨str "x", d, false, none⟩, ⟨[], d, true, some 1⟩,
               ⟨str "y", d, false, none⟩, ⟨str "z", d, false, none⟩,
               ⟨str "w", 2, false, none⟩] ∧
       joinWords (nonSilenceTexts
           [⟨str "x", d, false, none⟩, ⟨[], d, true, some 1⟩,
            ⟨str "y", d, false, none⟩, ⟨str "z", d, false, none⟩,
            ⟨str "w", 2, false, none⟩]) = str "x y z w") := by
  constructor
  · intro s d h
    have hsa : splitAlpha s = (s, []) := splitAlphaGo_noLt s.length s h
    have hfs : findSil s = [] := findSilGo_noLt s.length s h
    refine ⟨(((splitOnChar '.' s).map stripWS).filter
        fun t => ¬ t.isEmpty).flatMap
          fun sent => emitGo [] d [] (splitWS sent), ?_, ?_⟩
    · simp [extract_text_alpha_chunks, hsa, processBlock, hfs, silDurations,
        mapOptionM, silPhMap, applySilReplaces, processPairs]
    · rw [emit_pieces d (splitOnChar '.' s), nonSilenceTexts_pieces,
        joinWords_opt splitWS, ← flatMap_splitWS_dot]
  · intro d
    exact ⟨rfl, rfl⟩

/-- C3 amended witness: the bracket-free input "a. b  c" at default speed
1 segments to chunks whose texts rejoin to the period-and-whitespace
collapsed form "a b c". -/
theorem roundtrip_tags_as_separators_witness :
    (∀ c ∈ str "a. b  c", c ≠ '<') ∧
    (∃ L, extract_text_alpha_chunks (str "a. b  c") 1 = some L ∧
      joinWords (nonSilenceTexts L) =
        joinWords (splitWS ((str "a. b  c").map dotToSpace))) :=
  ⟨by decide, roundtrip_tags_as_separators.1 (str "a. b  c") 1 (by decide)⟩

end FastSpeech
